import Mathlib

/-!
Shallow embedding of the asynchronous computation dispatch fabric of the
Velivolant middle layer: the Kafka producer and results consumer, the
computation feeder (dispatcher), the result router with its ledger upsert,
the Express application surface, and the WebSocket hub.  Each definition is
translated from the corresponding JavaScript source file; theorems settle
the specification claims against these definitions.
-/

namespace Velivolant

/-! ### Waiter table with expiry timers

Model of `ResultsConsumer.resultHandlers` (a Map from correlation id to a
callback) together with the 5-minute `setTimeout` armed by
`registerHandler`.  Handlers are identified by natural numbers; time is in
milliseconds.  Events are the operations the source performs on the table:
`register` (registerHandler), `resolve` (the delete performed by
`handleResult` after invoking a handler), `timeoutFire` (the `submitAndWait`
deadline callback, which only rejects the promise), and `advance`
(wall-clock progress, firing every due timer). -/

structure WaiterEntry where
  cid : String
  handler : Nat
  regTime : Nat
deriving Repr, DecidableEq

structure WaiterState where
  now : Nat
  waiters : List WaiterEntry
  timers : List (Nat × String)
deriving Repr, DecidableEq

def WaiterState.initial : WaiterState := ⟨0, [], []⟩

/-- Map.set semantics: replace the entry for `cid` if present, else append. -/
def setWaiter (l : List WaiterEntry) (cid : String) (h : Nat) (t : Nat) : List WaiterEntry :=
  if l.any (fun w => w.cid = cid) then
    l.map (fun w => if w.cid = cid then ⟨cid, h, t⟩ else w)
  else l ++ [⟨cid, h, t⟩]

/-- Delay of the auto-cleanup timer in `registerHandler`: 5 * 60 * 1000 ms. -/
def expiryMs : Nat := 5 * 60 * 1000

inductive WaiterEvent where
  | register (cid : String) (h : Nat)
  | resolve (cid : String)
  | timeoutFire
  | advance (t : Nat)
deriving Repr, DecidableEq

def stepW (st : WaiterState) (e : WaiterEvent) : WaiterState :=
  match e with
  | .register cid h =>
      { st with waiters := setWaiter st.waiters cid h st.now,
                timers := st.timers ++ [(st.now + expiryMs, cid)] }
  | .resolve cid => { st with waiters := st.waiters.filter (fun w => w.cid ≠ cid) }
  | .timeoutFire => st
  | .advance t =>
      if t < st.now then st
      else
        { now := t,
          waiters := st.waiters.filter
            (fun w => ¬ (st.timers.filter (fun p => p.1 ≤ t)).any (fun p => p.2 = w.cid)),
          timers := st.timers.filter (fun p => ¬ p.1 ≤ t) }

def runW (tr : List WaiterEvent) : WaiterState := tr.foldl stepW WaiterState.initial

def registerCount (tr : List WaiterEvent) : Nat :=
  (tr.filter (fun e => match e with | .register _ _ => true | _ => false)).length

/-- Invariant of the waiter table: every live entry was registered no more
than `expiryMs` ago, and its cleanup timer is still pending. -/
def waiterInv (st : WaiterState) : Prop :=
  ∀ w ∈ st.waiters,
    w.regTime ≤ st.now ∧ st.now < w.regTime + expiryMs ∧
    (w.regTime + expiryMs, w.cid) ∈ st.timers

theorem waiterInv_initial : waiterInv WaiterState.initial := by
  intro w hw; simp [WaiterState.initial] at hw

theorem waiterInv_step (st : WaiterState) (e : WaiterEvent)
    (h : waiterInv st) : waiterInv (stepW st e) := by
  cases e with
  | register cid hid =>
      intro w hw
      simp only [stepW, setWaiter] at hw ⊢
      by_cases hany : st.waiters.any (fun w => w.cid = cid)
      · simp only [hany, if_true] at hw
        rcases List.mem_map.mp hw with ⟨w0, hw0, hmap⟩
        by_cases hc : w0.cid = cid
        · simp only [hc, if_true] at hmap
          subst hmap
          refine ⟨le_refl _, by simp [expiryMs], ?_⟩
          simp [List.mem_append]
        · simp only [hc, if_false] at hmap
          subst hmap
          rcases h w0 hw0 with ⟨h1, h2, h3⟩
          exact ⟨h1, h2, List.mem_append_left _ h3⟩
      · simp only [hany, if_false] at hw
        rcases List.mem_append.mp hw with hmem | hmem
        · rcases h w hmem with ⟨h1, h2, h3⟩
          exact ⟨h1, h2, List.mem_append_left _ h3⟩
        · simp only [List.mem_singleton] at hmem
          subst hmem
          refine ⟨le_refl _, by simp [expiryMs], ?_⟩
          simp [List.mem_append]
  | resolve cid =>
      intro w hw
      simp only [stepW] at hw ⊢
      exact h w (List.mem_of_mem_filter hw)
  | timeoutFire =>
      exact h
  | advance t =>
      intro w hw
      simp only [stepW] at hw ⊢
      by_cases hlt : t < st.now
      · simp only [hlt, if_true] at hw ⊢
        exact h w hw
      · simp only [hlt, if_false] at hw ⊢
        have hmem := List.mem_of_mem_filter hw
        have hkeep := List.of_mem_filter hw
        rcases h w hmem with ⟨h1, h2, h3⟩
        have hnow : st.now ≤ t := Nat.le_of_not_lt hlt
        -- the cleanup timer of w did not fire, hence it is due after t
        have hnotfired : ¬ (w.regTime + expiryMs ≤ t) := by
          intro hdue
          have : (w.regTime + expiryMs, w.cid) ∈ st.timers.filter (fun p => p.1 ≤ t) := by
            exact List.mem_filter.mpr ⟨h3, by simpa using hdue⟩
          have : (st.timers.filter (fun p => p.1 ≤ t)).any (fun p => p.2 = w.cid) := by
            rw [List.any_eq_true]
            exact ⟨_, this, by simp⟩
          simp [this] at hkeep
        refine ⟨le_trans h1 hnow, Nat.lt_of_not_le hnotfired, ?_⟩
        exact List.mem_filter.mpr ⟨h3, by simpa using hnotfired⟩

theorem waiterInv_runW (tr : List WaiterEvent) : waiterInv (runW tr) := by
  suffices hgen : ∀ st, waiterInv st → waiterInv (tr.foldl stepW st) by
    exact hgen WaiterState.initial waiterInv_initial
  induction tr with
  | nil => intro st h; exact h
  | cons e tl ih =>
      intro st h
      exact ih (stepW st e) (waiterInv_step st e h)

theorem waiters_length_step (st : WaiterState) (e : WaiterEvent) :
    (stepW st e).waiters.length ≤
      st.waiters.length + (match e with | .register _ _ => 1 | _ => 0) := by
  cases e with
  | register cid hid =>
      simp only [stepW, setWaiter]
      by_cases hany : st.waiters.any (fun w => w.cid = cid)
      · simp [hany]
      · simp [hany]
  | resolve cid =>
      simpa [stepW] using Nat.le_trans (List.length_filter_le _ _) (Nat.le_refl _)
  | timeoutFire => simp [stepW]
  | advance t =>
      simp only [stepW]
      by_cases hlt : t < st.now
      · simp [hlt]
      · simp only [hlt, if_false]
        simpa using List.length_filter_le _ _

theorem waiters_length_runW (tr : List WaiterEvent) :
    (runW tr).waiters.length ≤ registerCount tr := by
  suffices hgen : ∀ st, (tr.foldl stepW st).waiters.length ≤
      st.waiters.length + registerCount tr by
    simpa [runW, WaiterState.initial] using hgen WaiterState.initial
  induction tr with
  | nil => intro st; simp [registerCount]
  | cons e tl ih =>
      intro st
      refine le_trans (ih (stepW st e)) ?_
      have hstep := waiters_length_step st e
      cases e <;> (simp_all [registerCount]; try omega)

/-- Advancing the clock by the expiry delay empties the waiter table. -/
theorem waiters_empty_after_expiry (st : WaiterState) (h : waiterInv st) :
    (stepW st (WaiterEvent.advance (st.now + expiryMs))).waiters = [] := by
  simp only [stepW]
  have hnotlt : ¬ (st.now + expiryMs < st.now) := by omega
  simp only [hnotlt, if_false]
  rw [List.filter_eq_nil_iff]
  intro w hw
  rcases h w hw with ⟨h1, _h2, h3⟩
  have hdue : w.regTime + expiryMs ≤ st.now + expiryMs := by omega
  have hfired : (w.regTime + expiryMs, w.cid) ∈
      st.timers.filter (fun p => p.1 ≤ st.now + expiryMs) :=
    List.mem_filter.mpr ⟨h3, by simpa using hdue⟩
  simp only [decide_not, Bool.not_eq_true', decide_eq_false_iff_not, Decidable.not_not]
  rw [List.any_eq_true]
  exact ⟨_, hfired, by simp⟩

/-! ### Records on the two topics -/

/-- Decoded value consumed from `velivolant.computation-results.v1`
(field names as destructured in `ResultsConsumer.handleResult`). -/
structure ResultRecord where
  request_id : String
  correlation_id : String
  status : String
  result : Option String
  computed_at : Nat
  processing_time_ms : Option Int
  error_message : Option String
deriving Repr, DecidableEq

/-- Request record built by `ComputationFeeder.submitRequest`. -/
structure RequestRecord where
  request_id : String
  request_type : String
  payload : String
  user_id : Option String
  event_id : Option String
  timestamp : Nat
  correlation_id : String
deriving Repr, DecidableEq

/-! ### Log producer (`KafkaProducer.publishRequest`) -/

structure ProducerMessage where
  key : String
  headers : List (String × String)
deriving Repr, DecidableEq

def getHeader (m : ProducerMessage) (k : String) : Option String :=
  (m.headers.find? (fun p => p.1 = k)).map (fun p => p.2)

/-- Message constructed by `KafkaProducer.publishRequest`: key and headers
exactly as in the `producer.send` call. -/
def publishRequestMessage (request : RequestRecord) : ProducerMessage :=
  { key := request.request_id,
    headers := [("correlation-id", request.correlation_id), ("source", "middle-api")] }

/-! ### Result ledger upsert (`ResultsConsumer.handleResult`, db.query)

The INSERT statement names seven columns bound to placeholders one through
seven; the parameter array built in the source supplies the values below, in
source order.  `pgBind` models the extended-protocol bind step of the
database client: the number of supplied values must equal the number of
placeholders in the statement. -/

inductive SqlValue where
  | s (v : String)
  | i (v : Int)
  | time (v : Nat)
  | null
deriving Repr, DecidableEq

def optS : Option String → SqlValue
  | some v => .s v
  | none => .null

def optI : Option Int → SqlValue
  | some v => .i v
  | none => .null

/-- Columns of the INSERT in `handleResult`, in source order. -/
def upsertColumns : List String :=
  ["request_id", "correlation_id", "status", "result_data",
   "computed_at", "processing_time_ms", "error_message"]

/-- Number of placeholders appearing in the statement text. -/
def upsertPlaceholders : Nat := 7

/-- The parameter array passed to `db.query` in `handleResult`, in source
order: request_id, status, resultData, new Date(computed_at),
processing_time_ms, error_message.  The destructured `correlation_id` is
not part of the array. -/
def upsertParams (r : ResultRecord) : List SqlValue :=
  [SqlValue.s r.request_id, SqlValue.s r.status, optS r.result,
   SqlValue.time r.computed_at, optI r.processing_time_ms, optS r.error_message]

def pgBind (values : List SqlValue) (placeholders : Nat) : Except String (List SqlValue) :=
  if values.length = placeholders then Except.ok values
  else Except.error "bind parameter count mismatch"

def exceptFailed {α : Type} : Except String α → Bool
  | .error _ => true
  | .ok _ => false

/-- A stored row of `computation_results`, as the list of values per
`upsertColumns`; the first entry is the `request_id` column. -/
abbrev LedgerRow := List SqlValue

/-- ON CONFLICT (request_id) DO UPDATE SET status = $2, result_data = $4,
computed_at = $5, processing_time_ms = $6, error_message = $7: the row keeps
its request_id and correlation_id columns and takes the bound values at
those placeholder positions. -/
def updateOnConflict (row vals : List SqlValue) : List SqlValue :=
  [row.getD 0 SqlValue.null, row.getD 1 SqlValue.null,
   vals.getD 1 SqlValue.null, vals.getD 3 SqlValue.null, vals.getD 4 SqlValue.null,
   vals.getD 5 SqlValue.null, vals.getD 6 SqlValue.null]

def upsertRow (ledger : List LedgerRow) (vals : List SqlValue) : List LedgerRow :=
  if ledger.any (fun row => row.head? = vals.head?) then
    ledger.map (fun row => if row.head? = vals.head? then updateOnConflict row vals else row)
  else ledger ++ [vals]

/-- SELECT * FROM computation_results WHERE request_id = $1
(`computationController.getResult`). -/
def getByRequestId (ledger : List LedgerRow) (rid : String) : Option LedgerRow :=
  ledger.find? (fun row => row.head? = some (SqlValue.s rid))

/-! ### Result router (`ResultsConsumer.handleResult`) -/

structure BroadcastMessage where
  type : String
  requestId : String
  correlationId : String
  status : String
  result : Option String
deriving Repr, DecidableEq

def mkBroadcast (r : ResultRecord) : BroadcastMessage :=
  ⟨"computation_result", r.request_id, r.correlation_id, r.status, r.result⟩

/-- State visible to `handleResult`: the waiter table (the same Map as in
the waiter machine, viewed without its timers), the ledger, and logs of the
handler invocations and WebSocket broadcasts it performs. -/
structure RouterState where
  waiters : List WaiterEntry
  ledger : List LedgerRow
  handlerCalls : List (Nat × ResultRecord)
  broadcasts : List BroadcastMessage
deriving Repr, DecidableEq

def lookupHandler (l : List WaiterEntry) (cid : String) : Option Nat :=
  (l.find? (fun w => w.cid = cid)).map (fun w => w.handler)

/-- `handleResult`: one try block wraps the ledger write, the handler
invocation and the WebSocket broadcast; any raised error is caught and only
logged.  `dbOk` abstracts availability of the database once the statement
binds; `wsAttached` abstracts `global.wsServer` being set. -/
def handleResult (dbOk : Bool) (wsAttached : Bool) (st : RouterState)
    (r : ResultRecord) : RouterState :=
  match pgBind (upsertParams r) upsertPlaceholders with
  | Except.error _ => st
  | Except.ok vals =>
    if dbOk = false then st
    else
      let st1 := { st with ledger := upsertRow st.ledger vals }
      let st2 :=
        match lookupHandler st1.waiters r.correlation_id with
        | some h =>
            { st1 with handlerCalls := st1.handlerCalls ++ [(h, r)],
                       waiters := st1.waiters.filter (fun w => w.cid ≠ r.correlation_id) }
        | none => st1
      if wsAttached then { st2 with broadcasts := st2.broadcasts ++ [mkBroadcast r] } else st2

/-! ### Dispatcher (`ComputationFeeder`) -/

structure PendingEntry where
  submittedAt : Nat
  requestType : String
  correlationId : String
deriving Repr, DecidableEq

def putPending (m : List (String × PendingEntry)) (k : String) (v : PendingEntry) :
    List (String × PendingEntry) :=
  if m.any (fun p => p.1 = k) then m.map (fun p => if p.1 = k then (k, v) else p)
  else m ++ [(k, v)]

structure FeederSt where
  pending : List (String × PendingEntry)
  consumer : WaiterState
deriving Repr, DecidableEq

def getPendingCount (st : FeederSt) : Nat := st.pending.length

/-- `submitRequest`: await publishRequest; on success register the callback
(if any) through `ResultsConsumer.registerHandler`, then record the pending
entry and return the ids; on publish failure rethrow the error with no state
change.  `pubResult` abstracts the outcome of the awaited publish. -/
def submitRequest (pubResult : Except String Unit) (callback : Option Nat)
    (requestType : String) (rid cid : String) (st : FeederSt) :
    FeederSt × Except String (String × String) :=
  match pubResult with
  | .error e => (st, .error e)
  | .ok _ =>
    let st1 :=
      match callback with
      | some h => { st with consumer := stepW st.consumer (.register cid h) }
      | none => st
    let entry : PendingEntry := ⟨st1.consumer.now, requestType, cid⟩
    let st2 := { st1 with pending := putPending st1.pending rid entry }
    (st2, .ok (rid, cid))

/-- The observable actions of one `submitRequest` call, in the order the
source performs them (publish first; register and record only after the
publish resolves). -/
inductive FStep where
  | publishReq (rid cid : String)
  | registerWaiter (cid : String)
  | setPending (rid : String)
deriving Repr, DecidableEq

def submitRequestSteps (pubOk : Bool) (hasCallback : Bool) (rid cid : String) : List FStep :=
  if pubOk then
    [FStep.publishReq rid cid]
      ++ (if hasCallback then [FStep.registerWaiter cid] else [])
      ++ [FStep.setPending rid]
  else [FStep.publishReq rid cid]

def registersBeforePublish (l : List FStep) : Bool :=
  match l.findIdx? (fun s => match s with | .registerWaiter _ => true | _ => false),
        l.findIdx? (fun s => match s with | .publishReq _ _ => true | _ => false) with
  | some i, some j => decide (i < j)
  | _, _ => false

/-! ### `submitAndWait` -/

inductive SAWOutcome where
  | resolved (value : String)
  | rejected (message : String)
deriving Repr, DecidableEq

/-- Default deadline in `submitAndWait`: options.timeout or 30000 ms. -/
def defaultTimeoutMs : Nat := 30000

/-- Settling of the `submitAndWait` promise and the time (ms after the
call) at which it settles.  `arrival` abstracts the invocation of the
registered callback by the consumer: the time it runs and the record it
carries; `none` means no matching result arrives.  The deadline timer only
rejects; a callback running before the deadline clears the timer and
settles from the record. -/
def submitAndWait (pubResult : Except String Unit) (optTimeout : Option Nat)
    (arrival : Option (Nat × ResultRecord)) : SAWOutcome × Nat :=
  let timeout := optTimeout.getD defaultTimeoutMs
  match pubResult with
  | .error e => (SAWOutcome.rejected e, 0)
  | .ok _ =>
    match arrival with
    | none => (SAWOutcome.rejected "Computation request timed out", timeout)
    | some (ta, r) =>
      if ta < timeout then
        if r.status = "SUCCESS" then (SAWOutcome.resolved (r.result.getD ""), ta)
        else (SAWOutcome.rejected (r.error_message.getD "Computation failed"), ta)
      else (SAWOutcome.rejected "Computation request timed out", timeout)

/-! ### Express application surface (app.js)

The application mounts the auth router, defines the health and protected
data routes, and falls through to the 404 handler; the compute routes are
commented out and never mounted. -/

inductive AppHandler where
  | authRouter
  | healthCheck
  | protectedData
  | notFound
deriving Repr, DecidableEq

def leadsWith : List Char → List Char → Bool
  | [], _ => true
  | _ :: _, [] => false
  | a :: as, b :: bs => (a == b) && leadsWith as bs

/-- Express app.use mount semantics: the mount path matches itself and any
subpath. -/
def mountMatches (mount path : String) : Bool :=
  (path == mount) || leadsWith (mount ++ "/").toList path.toList

def appDispatch (method path : String) : AppHandler :=
  if mountMatches "/api/auth" path then AppHandler.authRouter
  else if (method == "GET") && (path == "/api/health") then AppHandler.healthCheck
  else if (method == "GET") && (path == "/api/data") then AppHandler.protectedData
  else AppHandler.notFound

structure HttpResponse where
  status : Nat
  success : Option Bool
  message : Option String
deriving Repr, DecidableEq

/-- Response of the terminal 404 handler in app.js. -/
def notFoundResponse : HttpResponse := ⟨404, some false, some "Route not found"⟩

/-! ### WebSocket hub (websocket/server.js)

Connections are identified by natural numbers standing for the socket
objects.  The hub keeps two indices: `clients` (userId to connection ids)
and `eventSubscriptions` (eventId to connection ids), each a JS Map of
Sets, plus the per-connection fields set by the handlers.  `sent` logs the
type of every frame passed to `send`; a live connection is always in the
OPEN transport state in this model, since the close event removes the
connection from the state. -/

def insertId (i : Nat) (l : List Nat) : List Nat :=
  if l.contains i then l else l ++ [i]

def eraseId (i : Nat) (l : List Nat) : List Nat := l.filter (fun j => j ≠ i)

abbrev IdMap := List (String × List Nat)

/-- Map.get with a default of the empty set. -/
def getSet : IdMap → String → List Nat
  | [], _ => []
  | p :: rest, k => if p.1 = k then p.2 else getSet rest k

/-- Map.set: replace the entry for the key, or append a fresh one. -/
def putSet : IdMap → String → List Nat → IdMap
  | [], k, s => [(k, s)]
  | p :: rest, k, s => if p.1 = k then (k, s) :: rest else p :: putSet rest k s

def addToSet (m : IdMap) (k : String) (i : Nat) : IdMap :=
  putSet m k (insertId i (getSet m k))

/-- Removal with empty-key cleanup, as in handleDisconnect and
handleUnsubscribeEvent. -/
def delFromSet (m : IdMap) (k : String) (i : Nat) : IdMap :=
  let s := eraseId i (getSet m k)
  if s.isEmpty then m.filter (fun p => p.1 ≠ k) else putSet m k s

structure Conn where
  cid : Nat
  userId : Option String
  subscribedEvents : List String
deriving Repr, DecidableEq

structure HubState where
  conns : List Conn
  clients : IdMap
  eventSubscriptions : IdMap
  sent : List (Nat × String)
deriving Repr, DecidableEq

def HubState.empty : HubState := ⟨[], [], [], []⟩

def findConn (st : HubState) (i : Nat) : Option Conn :=
  st.conns.find? (fun c => c.cid = i)

def sendTo (st : HubState) (i : Nat) (msgType : String) : HubState :=
  { st with sent := st.sent ++ [(i, msgType)] }

def updConn (st : HubState) (i : Nat) (f : Conn → Conn) : HubState :=
  { st with conns := st.conns.map (fun c => if c.cid = i then f c else c) }

/-- handleConnection: a fresh socket starts unauthenticated with no
subscriptions and receives the connected frame.  A socket object is a fresh
identity, so a connect for a live id is a no-op. -/
def handleConnection (st : HubState) (i : Nat) : HubState :=
  if st.conns.any (fun c => c.cid = i) then st
  else
    let st1 := { st with conns := st.conns ++ [⟨i, none, []⟩] }
    sendTo st1 i "connected"

/-- handleAuthenticate: on a valid token, bind ws.userId and add the socket
to the clients index; the socket is never removed from the index of a
previously bound user.  On a missing or invalid token, send auth_error. -/
def handleAuthenticate (st : HubState) (i : Nat) (tokenValid : Bool) (uid : String) : HubState :=
  match findConn st i with
  | none => st
  | some _ =>
    if tokenValid = false then sendTo st i "auth_error"
    else
      let st1 := updConn st i (fun c => { c with userId := some uid })
      let st2 := { st1 with clients := addToSet st1.clients uid i }
      sendTo st2 i "authenticated"

def insertStr (e : String) (l : List String) : List String :=
  if l.contains e then l else l ++ [e]

/-- handleSubscribeEvent: requires ws.userId and an eventId; adds the socket
to the event index and the event to ws.subscribedEvents. -/
def handleSubscribeEvent (st : HubState) (i : Nat) (eventId : Option String) : HubState :=
  match findConn st i with
  | none => st
  | some c =>
    if c.userId = none then sendTo st i "error"
    else
      match eventId with
      | none => sendTo st i "error"
      | some e =>
        let st1 := { st with eventSubscriptions := addToSet st.eventSubscriptions e i }
        let st2 := updConn st1 i (fun c2 => { c2 with subscribedEvents := insertStr e c2.subscribedEvents })
        sendTo st2 i "subscribed"

/-- handleUnsubscribeEvent: symmetric removal from the event index (with
empty-key cleanup) and from ws.subscribedEvents; no auth precondition. -/
def handleUnsubscribeEvent (st : HubState) (i : Nat) (eventId : Option String) : HubState :=
  match findConn st i with
  | none => st
  | some _ =>
    match eventId with
    | none => sendTo st i "error"
    | some e =>
      let st1 := { st with eventSubscriptions := delFromSet st.eventSubscriptions e i }
      let st2 := updConn st1 i (fun c2 => { c2 with subscribedEvents := c2.subscribedEvents.filter (fun x => x ≠ e) })
      sendTo st2 i "unsubscribed"

/-- handleDisconnect: remove the socket from the clients index under its
current userId, from the event index of each event in ws.subscribedEvents,
and from the connection list. -/
def handleDisconnect (st : HubState) (i : Nat) : HubState :=
  match findConn st i with
  | none => st
  | some c =>
    let cl :=
      match c.userId with
      | some u => delFromSet st.clients u i
      | none => st.clients
    let es := c.subscribedEvents.foldl (fun m e => delFromSet m e i) st.eventSubscriptions
    { st with conns := st.conns.filter (fun c2 => c2.cid ≠ i),
              clients := cl, eventSubscriptions := es }

/-- A socket in the OPEN transport state: in this model, one that is in the
connection list (a close removed it). -/
def isLive (st : HubState) (i : Nat) : Bool := st.conns.any (fun c => c.cid = i)

/-- broadcastToUser iterates the set under the userId and calls `send` on
each socket; `send` silently drops sockets that are not OPEN.  The value is
the list of connection ids the message is delivered to. -/
def broadcastToUser (st : HubState) (u : String) : List Nat :=
  (getSet st.clients u).filter (fun i => isLive st i)

/-- broadcastToEvent, same delivery semantics under the event index. -/
def broadcastToEvent (st : HubState) (e : String) : List Nat :=
  (getSet st.eventSubscriptions e).filter (fun i => isLive st i)

inductive HubEvent where
  | connect (i : Nat)
  | authenticate (i : Nat) (tokenValid : Bool) (uid : String)
  | subscribeEvent (i : Nat) (eventId : Option String)
  | unsubscribeEvent (i : Nat) (eventId : Option String)
  | disconnect (i : Nat)
deriving Repr, DecidableEq

def stepHub (st : HubState) (e : HubEvent) : HubState :=
  match e with
  | .connect i => handleConnection st i
  | .authenticate i tv uid => handleAuthenticate st i tv uid
  | .subscribeEvent i eid => handleSubscribeEvent st i eid
  | .unsubscribeEvent i eid => handleUnsubscribeEvent st i eid
  | .disconnect i => handleDisconnect st i

def runHub (tr : List HubEvent) : HubState := tr.foldl stepHub HubState.empty

/-! ### Map and set lemmas -/

theorem mem_insertId (i j : Nat) (l : List Nat) :
    i ∈ insertId j l ↔ i ∈ l ∨ i = j := by
  simp only [insertId]
  by_cases hj : j ∈ l
  · have hc : l.contains j = true := by simpa using hj
    simp only [hc, if_true]
    constructor
    · exact Or.inl
    · rintro (h | rfl)
      · exact h
      · exact hj
  · simp [hj, List.mem_append]

theorem mem_eraseId (i j : Nat) (l : List Nat) :
    i ∈ eraseId j l ↔ i ∈ l ∧ i ≠ j := by
  simp [eraseId, List.mem_filter]

theorem eraseId_eraseId (i : Nat) (l : List Nat) :
    eraseId i (eraseId i l) = eraseId i l := by
  simp [eraseId, List.filter_filter]

theorem mem_insertStr (e x : String) (l : List String) :
    e ∈ insertStr x l ↔ e ∈ l ∨ e = x := by
  simp only [insertStr]
  by_cases hj : x ∈ l
  · have hc : l.contains x = true := by simpa using hj
    simp only [hc, if_true]
    constructor
    · exact Or.inl
    · rintro (h | rfl)
      · exact h
      · exact hj
  · simp [hj, List.mem_append]

theorem getSet_putSet (m : IdMap) (k k' : String) (s : List Nat) :
    getSet (putSet m k s) k' = if k' = k then s else getSet m k' := by
  induction m with
  | nil =>
      by_cases h : k' = k
      · simp [putSet, getSet, h]
      · have h2 : ¬ (k = k') := fun hx => h hx.symm
        simp [putSet, getSet, h, h2]
  | cons p rest ih =>
      by_cases hp : p.1 = k
      · simp only [putSet, hp, if_true]
        by_cases h : k' = k
        · simp [getSet, h]
        · have hk : ¬ (k = k') := fun hx => h hx.symm
          have hp' : ¬ (p.1 = k') := by rw [hp]; exact hk
          simp [getSet, h, hk, hp']
      · simp only [putSet, hp, if_false]
        by_cases hp' : p.1 = k'
        · have h : ¬ (k' = k) := fun hx => hp (by rw [hp', hx])
          simp [getSet, hp', h]
        · simp only [getSet, hp', if_false]
          exact ih

theorem getSet_filterKey (m : IdMap) (k k' : String) :
    getSet (m.filter (fun p => p.1 ≠ k)) k' =
      if k' = k then [] else getSet m k' := by
  induction m with
  | nil => by_cases h : k' = k <;> simp [getSet, h]
  | cons p rest ih =>
      rw [List.filter_cons]
      by_cases hp : p.1 = k
      · have hd : decide (p.1 ≠ k) = false := by simp [hp]
        simp only [hd, Bool.false_eq_true, if_false]
        rw [ih]
        by_cases h : k' = k
        · simp [h]
        · have hp' : ¬ (p.1 = k') := by rw [hp]; exact fun hx => h hx.symm
          simp [getSet, h, hp']
      · have hd : decide (p.1 ≠ k) = true := by simp [hp]
        simp only [hd, if_true]
        by_cases hp' : p.1 = k'
        · have h : ¬ (k' = k) := fun hx => hp (by rw [hp', hx])
          simp [getSet, hp', h]
        · simp only [getSet, hp', if_false]
          exact ih

theorem getSet_delFromSet (m : IdMap) (k k' : String) (i : Nat) :
    getSet (delFromSet m k i) k' =
      if k' = k then eraseId i (getSet m k) else getSet m k' := by
  simp only [delFromSet]
  by_cases hemp : (eraseId i (getSet m k)).isEmpty
  · simp only [hemp, if_true]
    rw [getSet_filterKey]
    by_cases h : k' = k
    · simp only [h, if_true]
      rw [List.isEmpty_iff] at hemp
      exact hemp.symm
    · simp [h]
  · simp only [hemp, if_false]
    exact getSet_putSet m k k' _

theorem getSet_addToSet (m : IdMap) (k k' : String) (i : Nat) :
    getSet (addToSet m k i) k' =
      if k' = k then insertId i (getSet m k) else getSet m k' := by
  simp only [addToSet]
  exact getSet_putSet m k k' _

theorem getSet_delAll (evs : List String) (m : IdMap) (i : Nat) (e : String) :
    getSet (evs.foldl (fun m2 x => delFromSet m2 x i) m) e =
      if e ∈ evs then eraseId i (getSet m e) else getSet m e := by
  induction evs generalizing m with
  | nil => simp
  | cons x tl ih =>
      simp only [List.foldl_cons]
      rw [ih (delFromSet m x i)]
      by_cases hmem : e ∈ tl
      · simp only [hmem, if_true, List.mem_cons, or_true]
        rw [getSet_delFromSet]
        by_cases hex : e = x
        · simp [hex, eraseId_eraseId]
        · simp [hex, hmem]
      · simp only [hmem, if_false]
        rw [getSet_delFromSet]
        by_cases hex : e = x
        · simp [hex]
        · simp [hex, hmem]

/-! ### Hub invariant

In every reachable hub state: connection ids are unique; the event index
and the per-connection subscribedEvents sets agree exactly; and a
connection bound to a user is present in that user's clients set.  There is
deliberately no converse for the clients index: a re-authenticated
connection stays in the set of its former user. -/

def hubInv (st : HubState) : Prop :=
  (∀ c1 ∈ st.conns, ∀ c2 ∈ st.conns, c1.cid = c2.cid → c1 = c2) ∧
  (∀ e i, i ∈ getSet st.eventSubscriptions e →
    ∃ c ∈ st.conns, c.cid = i ∧ e ∈ c.subscribedEvents) ∧
  (∀ c ∈ st.conns, ∀ e ∈ c.subscribedEvents, c.cid ∈ getSet st.eventSubscriptions e) ∧
  (∀ c ∈ st.conns, ∀ u, c.userId = some u → c.cid ∈ getSet st.clients u)

theorem findConn_some (st : HubState) (i : Nat) (c : Conn)
    (h : findConn st i = some c) : c ∈ st.conns ∧ c.cid = i := by
  refine ⟨List.mem_of_find?_eq_some h, ?_⟩
  have := List.find?_some h
  simpa using this

/-! Per-branch characterizations of the handlers, used by the invariant
proofs. -/

theorem handleConnection_fresh (st : HubState) (i : Nat)
    (hany : st.conns.any (fun c => c.cid = i) = false) :
    handleConnection st i =
      { conns := st.conns ++ [⟨i, none, []⟩],
        clients := st.clients,
        eventSubscriptions := st.eventSubscriptions,
        sent := st.sent ++ [(i, "connected")] } := by
  unfold handleConnection
  rw [hany]
  rfl

theorem handleAuthenticate_valid (st : HubState) (i : Nat) (uid : String) (c0 : Conn)
    (hf : findConn st i = some c0) :
    handleAuthenticate st i true uid =
      { conns := st.conns.map
          (fun c => if c.cid = i then { c with userId := some uid } else c),
        clients := addToSet st.clients uid i,
        eventSubscriptions := st.eventSubscriptions,
        sent := st.sent ++ [(i, "authenticated")] } := by
  unfold handleAuthenticate
  rw [hf]
  rfl

theorem handleSubscribeEvent_ok (st : HubState) (i : Nat) (e : String) (c0 : Conn)
    (hf : findConn st i = some c0) (hu : ¬ c0.userId = none) :
    handleSubscribeEvent st i (some e) =
      { conns := st.conns.map
          (fun c => if c.cid = i then { c with subscribedEvents := insertStr e c.subscribedEvents } else c),
        clients := st.clients,
        eventSubscriptions := addToSet st.eventSubscriptions e i,
        sent := st.sent ++ [(i, "subscribed")] } := by
  unfold handleSubscribeEvent
  rw [hf]
  simp only [hu, if_false]
  rfl

theorem handleUnsubscribeEvent_ok (st : HubState) (i : Nat) (e : String) (c0 : Conn)
    (hf : findConn st i = some c0) :
    handleUnsubscribeEvent st i (some e) =
      { conns := st.conns.map
          (fun c => if c.cid = i then { c with subscribedEvents := c.subscribedEvents.filter (fun x => x ≠ e) } else c),
        clients := st.clients,
        eventSubscriptions := delFromSet st.eventSubscriptions e i,
        sent := st.sent ++ [(i, "unsubscribed")] } := by
  unfold handleUnsubscribeEvent
  rw [hf]
  rfl

theorem handleDisconnect_found (st : HubState) (i : Nat) (c0 : Conn)
    (hf : findConn st i = some c0) :
    handleDisconnect st i =
      { conns := st.conns.filter (fun c2 => c2.cid ≠ i),
        clients :=
          (match c0.userId with
           | some u => delFromSet st.clients u i
           | none => st.clients),
        eventSubscriptions :=
          c0.subscribedEvents.foldl (fun m e => delFromSet m e i) st.eventSubscriptions,
        sent := st.sent } := by
  unfold handleDisconnect
  rw [hf]

theorem hubInv_connect (st : HubState) (i : Nat) (h : hubInv st) :
    hubInv (handleConnection st i) := by
  obtain ⟨ha, hb, hc, he⟩ := h
  by_cases hany : st.conns.any (fun c => c.cid = i)
  · unfold handleConnection
    rw [hany]
    exact ⟨ha, hb, hc, he⟩
  · rw [handleConnection_fresh st i (by simpa using hany)]
    have hfresh : ∀ c ∈ st.conns, c.cid ≠ i := by
      intro c hcm heq
      exact hany (List.any_eq_true.mpr ⟨c, hcm, by simp [heq]⟩)
    refine ⟨?_, ?_, ?_, ?_⟩
    · intro c1 hc1 c2 hc2 heq
      rw [List.mem_append, List.mem_singleton] at hc1 hc2
      rcases hc1 with h1 | h1 <;> rcases hc2 with h2 | h2
      · exact ha c1 h1 c2 h2 heq
      · subst h2
        exact absurd heq (hfresh c1 h1)
      · subst h1
        exact absurd heq.symm (hfresh c2 h2)
      · rw [h1, h2]
    · intro e i' hmem
      rcases hb e i' hmem with ⟨c, hcm, hcid, hsub⟩
      exact ⟨c, List.mem_append_left _ hcm, hcid, hsub⟩
    · intro c hcm e hsub
      rw [List.mem_append, List.mem_singleton] at hcm
      rcases hcm with hcm | hcm
      · exact hc c hcm e hsub
      · subst hcm
        simp at hsub
    · intro c hcm u hu
      rw [List.mem_append, List.mem_singleton] at hcm
      rcases hcm with hcm | hcm
      · exact he c hcm u hu
      · subst hcm
        simp at hu

theorem hubInv_authenticate (st : HubState) (i : Nat) (tv : Bool) (uid : String)
    (h : hubInv st) : hubInv (handleAuthenticate st i tv uid) := by
  obtain ⟨ha, hb, hc, he⟩ := h
  cases hf : findConn st i with
  | none =>
      unfold handleAuthenticate
      rw [hf]
      exact ⟨ha, hb, hc, he⟩
  | some c0 =>
    obtain ⟨hc0m, hc0i⟩ := findConn_some st i c0 hf
    cases tv with
    | false =>
        unfold handleAuthenticate
        rw [hf]
        exact ⟨ha, hb, hc, he⟩
    | true =>
      rw [handleAuthenticate_valid st i uid c0 hf]
      refine ⟨?_, ?_, ?_, ?_⟩
      · intro c1 hc1 c2 hc2 heq
        rw [List.mem_map] at hc1 hc2
        rcases hc1 with ⟨d1, hd1, rfl⟩
        rcases hc2 with ⟨d2, hd2, rfl⟩
        have hcid : d1.cid = d2.cid := by
          by_cases h1 : d1.cid = i <;> by_cases h2 : d2.cid = i <;>
            simp only [h1, h2, if_true, if_false] at heq <;> simp_all
        have := ha d1 hd1 d2 hd2 hcid
        rw [this]
      · intro e i' hmem
        rcases hb e i' hmem with ⟨c, hcm, hcid, hsub⟩
        refine ⟨if c.cid = i then { c with userId := some uid } else c, ?_, ?_, ?_⟩
        · rw [List.mem_map]
          exact ⟨c, hcm, rfl⟩
        · by_cases hci : c.cid = i
          · rw [if_pos hci]; exact hcid
          · rw [if_neg hci]; exact hcid
        · by_cases hci : c.cid = i
          · rw [if_pos hci]; exact hsub
          · rw [if_neg hci]; exact hsub
      · intro c hcm e hsub
        rw [List.mem_map] at hcm
        rcases hcm with ⟨d, hd, rfl⟩
        by_cases hdi : d.cid = i
        · rw [if_pos hdi] at hsub ⊢
          exact hc d hd e hsub
        · rw [if_neg hdi] at hsub ⊢
          exact hc d hd e hsub
      · intro c hcm u hu
        rw [List.mem_map] at hcm
        rcases hcm with ⟨d, hd, rfl⟩
        by_cases hdi : d.cid = i
        · rw [if_pos hdi] at hu ⊢
          have huid : uid = u := Option.some.inj hu
          subst huid
          rw [getSet_addToSet, if_pos rfl, mem_insertId]
          right
          exact hdi
        · rw [if_neg hdi] at hu ⊢
          have hmem := he d hd u hu
          rw [getSet_addToSet]
          by_cases huu : u = uid
          · subst huu
            rw [if_pos rfl, mem_insertId]
            left
            exact hmem
          · rw [if_neg huu]
            exact hmem

theorem uniq_map_guard (conns : List Conn) (i : Nat) (f : Conn → Conn)
    (hfc : ∀ c, (f c).cid = c.cid)
    (ha : ∀ c1 ∈ conns, ∀ c2 ∈ conns, c1.cid = c2.cid → c1 = c2) :
    ∀ c1 ∈ conns.map (fun c => if c.cid = i then f c else c),
    ∀ c2 ∈ conns.map (fun c => if c.cid = i then f c else c),
      c1.cid = c2.cid → c1 = c2 := by
  intro c1 h1 c2 h2 heq
  rw [List.mem_map] at h1 h2
  rcases h1 with ⟨d1, hd1, rfl⟩
  rcases h2 with ⟨d2, hd2, rfl⟩
  have g1 : (if d1.cid = i then f d1 else d1).cid = d1.cid := by
    by_cases h : d1.cid = i
    · rw [if_pos h]; exact hfc d1
    · rw [if_neg h]
  have g2 : (if d2.cid = i then f d2 else d2).cid = d2.cid := by
    by_cases h : d2.cid = i
    · rw [if_pos h]; exact hfc d2
    · rw [if_neg h]
  rw [g1, g2] at heq
  rw [ha d1 hd1 d2 hd2 heq]

theorem hubInv_subscribe (st : HubState) (i : Nat) (eid : Option String)
    (h : hubInv st) : hubInv (handleSubscribeEvent st i eid) := by
  obtain ⟨ha, hb, hc, he⟩ := h
  cases hf : findConn st i with
  | none =>
      unfold handleSubscribeEvent
      rw [hf]
      exact ⟨ha, hb, hc, he⟩
  | some c0 =>
    obtain ⟨hc0m, hc0i⟩ := findConn_some st i c0 hf
    by_cases hcu : c0.userId = none
    · unfold handleSubscribeEvent
      simp only [hf]
      rw [if_pos hcu]
      exact ⟨ha, hb, hc, he⟩
    · cases eid with
      | none =>
          unfold handleSubscribeEvent
          simp only [hf]
          rw [if_neg hcu]
          exact ⟨ha, hb, hc, he⟩
      | some e =>
        rw [handleSubscribeEvent_ok st i e c0 hf hcu]
        refine ⟨?_, ?_, ?_, ?_⟩
        · exact uniq_map_guard st.conns i _ (fun c => rfl) ha
        · intro e' i' hmem
          rw [getSet_addToSet] at hmem
          by_cases hee : e' = e
          · subst hee
            rw [if_pos rfl, mem_insertId] at hmem
            rcases hmem with hmem | rfl
            · rcases hb e' i' hmem with ⟨c, hcm, hcid, hsub⟩
              refine ⟨if c.cid = i then { c with subscribedEvents := insertStr e' c.subscribedEvents } else c,
                List.mem_map.mpr ⟨c, hcm, rfl⟩, ?_, ?_⟩
              · by_cases hci : c.cid = i
                · rw [if_pos hci]; exact hcid
                · rw [if_neg hci]; exact hcid
              · by_cases hci : c.cid = i
                · rw [if_pos hci, mem_insertStr]
                  left
                  exact hsub
                · rw [if_neg hci]; exact hsub
            · refine ⟨{ c0 with subscribedEvents := insertStr e' c0.subscribedEvents },
                List.mem_map.mpr ⟨c0, hc0m, by rw [if_pos hc0i]⟩, hc0i, ?_⟩
              rw [mem_insertStr]
              right
              rfl
          · rw [if_neg hee] at hmem
            rcases hb e' i' hmem with ⟨c, hcm, hcid, hsub⟩
            refine ⟨if c.cid = i then { c with subscribedEvents := insertStr e c.subscribedEvents } else c,
              List.mem_map.mpr ⟨c, hcm, rfl⟩, ?_, ?_⟩
            · by_cases hci : c.cid = i
              · rw [if_pos hci]; exact hcid
              · rw [if_neg hci]; exact hcid
            · by_cases hci : c.cid = i
              · rw [if_pos hci, mem_insertStr]
                left
                exact hsub
              · rw [if_neg hci]; exact hsub
        · intro c hcm e' hsub
          rw [List.mem_map] at hcm
          rcases hcm with ⟨d, hd, rfl⟩
          rw [getSet_addToSet]
          by_cases hdi : d.cid = i
          · rw [if_pos hdi] at hsub ⊢
            rw [mem_insertStr] at hsub
            by_cases hee : e' = e
            · subst hee
              rw [if_pos rfl, mem_insertId]
              right
              exact hdi
            · rw [if_neg hee]
              rcases hsub with hsub | hsub
              · exact hc d hd e' hsub
              · exact absurd hsub hee
          · rw [if_neg hdi] at hsub ⊢
            have hmem := hc d hd e' hsub
            by_cases hee : e' = e
            · subst hee
              rw [if_pos rfl, mem_insertId]
              left
              exact hmem
            · rw [if_neg hee]
              exact hmem
        · intro c hcm u hu
          rw [List.mem_map] at hcm
          rcases hcm with ⟨d, hd, rfl⟩
          by_cases hdi : d.cid = i
          · rw [if_pos hdi] at hu ⊢
            exact he d hd u hu
          · rw [if_neg hdi] at hu ⊢
            exact he d hd u hu

theorem hubInv_unsubscribe (st : HubState) (i : Nat) (eid : Option String)
    (h : hubInv st) : hubInv (handleUnsubscribeEvent st i eid) := by
  obtain ⟨ha, hb, hc, he⟩ := h
  cases hf : findConn st i with
  | none =>
      unfold handleUnsubscribeEvent
      rw [hf]
      exact ⟨ha, hb, hc, he⟩
  | some c0 =>
    obtain ⟨hc0m, hc0i⟩ := findConn_some st i c0 hf
    cases eid with
    | none =>
        unfold handleUnsubscribeEvent
        rw [hf]
        exact ⟨ha, hb, hc, he⟩
    | some e =>
      rw [handleUnsubscribeEvent_ok st i e c0 hf]
      refine ⟨?_, ?_, ?_, ?_⟩
      · exact uniq_map_guard st.conns i _ (fun c => rfl) ha
      · intro e' i' hmem
        rw [getSet_delFromSet] at hmem
        by_cases hee : e' = e
        · subst hee
          rw [if_pos rfl, mem_eraseId] at hmem
          obtain ⟨hmem, hne⟩ := hmem
          rcases hb e' i' hmem with ⟨c, hcm, hcid, hsub⟩
          have hci : ¬ c.cid = i := by rw [hcid]; exact hne
          refine ⟨if c.cid = i then { c with subscribedEvents := c.subscribedEvents.filter (fun x => x ≠ e') } else c,
            List.mem_map.mpr ⟨c, hcm, rfl⟩, ?_, ?_⟩
          · rw [if_neg hci]; exact hcid
          · rw [if_neg hci]; exact hsub
        · rw [if_neg hee] at hmem
          rcases hb e' i' hmem with ⟨c, hcm, hcid, hsub⟩
          refine ⟨if c.cid = i then { c with subscribedEvents := c.subscribedEvents.filter (fun x => x ≠ e) } else c,
            List.mem_map.mpr ⟨c, hcm, rfl⟩, ?_, ?_⟩
          · by_cases hci : c.cid = i
            · rw [if_pos hci]; exact hcid
            · rw [if_neg hci]; exact hcid
          · by_cases hci : c.cid = i
            · rw [if_pos hci, List.mem_filter]
              exact ⟨hsub, by simpa using hee⟩
            · rw [if_neg hci]; exact hsub
      · intro c hcm e' hsub
        rw [List.mem_map] at hcm
        rcases hcm with ⟨d, hd, rfl⟩
        rw [getSet_delFromSet]
        by_cases hdi : d.cid = i
        · rw [if_pos hdi] at hsub ⊢
          rw [List.mem_filter] at hsub
          obtain ⟨hsub, hne⟩ := hsub
          have hee : ¬ e' = e := by simpa using hne
          rw [if_neg hee]
          exact hc d hd e' hsub
        · rw [if_neg hdi] at hsub ⊢
          have hmem := hc d hd e' hsub
          by_cases hee : e' = e
          · subst hee
            rw [if_pos rfl, mem_eraseId]
            exact ⟨hmem, hdi⟩
          · rw [if_neg hee]
            exact hmem
      · intro c hcm u hu
        rw [List.mem_map] at hcm
        rcases hcm with ⟨d, hd, rfl⟩
        by_cases hdi : d.cid = i
        · rw [if_pos hdi] at hu ⊢
          exact he d hd u hu
        · rw [if_neg hdi] at hu ⊢
          exact he d hd u hu

theorem hubInv_disconnect (st : HubState) (i : Nat) (h : hubInv st) :
    hubInv (handleDisconnect st i) := by
  obtain ⟨ha, hb, hc, he⟩ := h
  cases hf : findConn st i with
  | none =>
      unfold handleDisconnect
      rw [hf]
      exact ⟨ha, hb, hc, he⟩
  | some c0 =>
    obtain ⟨hc0m, hc0i⟩ := findConn_some st i c0 hf
    rw [handleDisconnect_found st i c0 hf]
    refine ⟨?_, ?_, ?_, ?_⟩
    · intro c1 h1 c2 h2 heq
      exact ha c1 (List.mem_of_mem_filter h1) c2 (List.mem_of_mem_filter h2) heq
    · intro e i' hmem
      rw [getSet_delAll] at hmem
      by_cases hes : e ∈ c0.subscribedEvents
      · rw [if_pos hes, mem_eraseId] at hmem
        obtain ⟨hmem, hne⟩ := hmem
        rcases hb e i' hmem with ⟨c, hcm, hcid, hsub⟩
        have hci : c.cid ≠ i := by rw [hcid]; exact hne
        exact ⟨c, List.mem_filter.mpr ⟨hcm, by simpa using hci⟩, hcid, hsub⟩
      · rw [if_neg hes] at hmem
        rcases hb e i' hmem with ⟨c, hcm, hcid, hsub⟩
        have hci : c.cid ≠ i := by
          intro hx
          have hcc : c = c0 := ha c hcm c0 hc0m (by rw [hx, hc0i])
          rw [hcc] at hsub
          exact hes hsub
        exact ⟨c, List.mem_filter.mpr ⟨hcm, by simpa using hci⟩, hcid, hsub⟩
    · intro c hcm e hsub
      rw [List.mem_filter] at hcm
      obtain ⟨hcm, hci⟩ := hcm
      have hci' : c.cid ≠ i := by simpa using hci
      have hmem := hc c hcm e hsub
      rw [getSet_delAll]
      by_cases hes : e ∈ c0.subscribedEvents
      · rw [if_pos hes, mem_eraseId]
        exact ⟨hmem, hci'⟩
      · rw [if_neg hes]
        exact hmem
    · intro c hcm u hu
      rw [List.mem_filter] at hcm
      obtain ⟨hcm, hci⟩ := hcm
      have hci' : c.cid ≠ i := by simpa using hci
      have hmem := he c hcm u hu
      cases hcu : c0.userId with
      | some u0 =>
          simp only [hcu]
          rw [getSet_delFromSet]
          by_cases huu : u = u0
          · subst huu
            rw [if_pos rfl, mem_eraseId]
            exact ⟨hmem, hci'⟩
          · rw [if_neg huu]
            exact hmem
      | none =>
          simp only [hcu]
          exact hmem

theorem hubInv_empty : hubInv HubState.empty := by
  refine ⟨?_, ?_, ?_, ?_⟩
  · intro c1 hc1
    simp [HubState.empty] at hc1
  · intro e i hmem
    simp [HubState.empty, getSet] at hmem
  · intro c hcm
    simp [HubState.empty] at hcm
  · intro c hcm
    simp [HubState.empty] at hcm

theorem hubInv_step (st : HubState) (e : HubEvent) (h : hubInv st) :
    hubInv (stepHub st e) := by
  cases e with
  | connect i => exact hubInv_connect st i h
  | authenticate i tv uid => exact hubInv_authenticate st i tv uid h
  | subscribeEvent i eid => exact hubInv_subscribe st i eid h
  | unsubscribeEvent i eid => exact hubInv_unsubscribe st i eid h
  | disconnect i => exact hubInv_disconnect st i h

theorem hubInv_runHub (tr : List HubEvent) : hubInv (runHub tr) := by
  suffices hgen : ∀ st, hubInv st → hubInv (tr.foldl stepHub st) by
    exact hgen HubState.empty hubInv_empty
  induction tr with
  | nil => intro st h; exact h
  | cons e tl ih =>
      intro st h
      exact ih (stepHub st e) (hubInv_step st e h)

/-! ### Concrete records used by the claim theorems -/

/-- A concrete successful result record. -/
def sampleResult : ResultRecord :=
  ⟨"r1", "c1", "SUCCESS", some "bac004", 1700000000000, some 12, none⟩

/-- A concrete request record. -/
def sampleRequest : RequestRecord :=
  ⟨"r1", "BAC_CALCULATION", "payload1", none, none, 1700000000000, "c1"⟩

/-! ### Claim theorems -/

/-- C1, counterexample: the claim that a ledger persist failure leaves the
waiter resolution and the broadcast unaffected is false.  In `handleResult`
one try block wraps all three steps, so when the persist step fails (here:
it always fails, the statement binds six values to seven placeholders) the
registered waiter for the record's correlation id is neither invoked nor
removed and no broadcast is emitted. -/
theorem handleResult_ledger_failure_not_independent :
    exceptFailed (pgBind (upsertParams sampleResult) upsertPlaceholders) = true ∧
    (handleResult true true ⟨[⟨"c1", 7, 0⟩], [], [], []⟩ sampleResult).handlerCalls = [] ∧
    (handleResult true true ⟨[⟨"c1", 7, 0⟩], [], [], []⟩ sampleResult).broadcasts = [] ∧
    (handleResult true true ⟨[⟨"c1", 7, 0⟩], [], [], []⟩ sampleResult).waiters
      = [⟨"c1", 7, 0⟩] := by
  decide

/-- C1, amended: a failure of the ledger persist step aborts the remaining
steps of the result router: the error is caught and logged, the waiter is
not resolved, no broadcast is attempted, and the state is unchanged. -/
theorem handleResult_persist_failure_aborts_remaining_steps
    (dbOk wsAttached : Bool) (st : RouterState) (r : ResultRecord)
    (h : exceptFailed (pgBind (upsertParams r) upsertPlaceholders) = true ∨ dbOk = false) :
    handleResult dbOk wsAttached st r = st := by
  unfold handleResult
  cases hp : pgBind (upsertParams r) upsertPlaceholders with
  | error e => rfl
  | ok vals =>
      rcases h with h | h
      · rw [hp] at h
        simp [exceptFailed] at h
      · subst h
        rfl

/-- Witness for the C1 amended theorem at a concrete state and record. -/
theorem handleResult_persist_failure_aborts_remaining_steps_witness :
    handleResult true true ⟨[⟨"c1", 7, 0⟩], [], [], []⟩ sampleResult
      = ⟨[⟨"c1", 7, 0⟩], [], [], []⟩ :=
  handleResult_persist_failure_aborts_remaining_steps true true
    ⟨[⟨"c1", 7, 0⟩], [], [], []⟩ sampleResult (Or.inl (by decide))

/-- C2: the ledger upsert does not store the record's fields in the
matching columns.  The parameter array omits the correlation id: it has six
values for seven placeholders, so the value in the position bound to the
correlation_id column is the record's status, and the bind step fails
outright, leaving the ledger without any row for the record; after two
injections of the same record, getByRequestId still returns nothing rather
than a row matching the last record. -/
theorem upsert_parameter_misalignment :
    (∀ r : ResultRecord,
      (upsertParams r).length = 6 ∧ upsertPlaceholders = 7 ∧
      exceptFailed (pgBind (upsertParams r) upsertPlaceholders) = true) ∧
    upsertColumns.getD 1 "" = "correlation_id" ∧
    (upsertParams sampleResult).getD 1 SqlValue.null = SqlValue.s sampleResult.status ∧
    handleResult true true ⟨[], [], [], []⟩ sampleResult = ⟨[], [], [], []⟩ ∧
    getByRequestId
      (handleResult true true
        (handleResult true true ⟨[], [], [], []⟩ sampleResult) sampleResult).ledger
      "r1" = none := by
  refine ⟨fun r => ⟨rfl, rfl, rfl⟩, by decide, by decide, by decide, by decide⟩

/-- C3, counterexample: on a submission with a callback the dispatcher does
not register the waiter before publishing; the publish action precedes the
waiter registration in the execution order of `submitRequest`. -/
theorem submitRequest_registers_after_publish_cex :
    submitRequestSteps true true "r" "c" =
      [FStep.publishReq "r" "c", FStep.registerWaiter "c", FStep.setPending "r"] ∧
    registersBeforePublish (submitRequestSteps true true "r" "c") = false := by
  decide

/-- C3, amended: the dispatcher publishes the request first and registers
the waiter only after the publish resolves; on a publish failure no waiter
is ever registered. -/
theorem submitRequest_publish_precedes_register (rid cid : String) :
    submitRequestSteps true true rid cid =
      [FStep.publishReq rid cid, FStep.registerWaiter cid, FStep.setPending rid] ∧
    submitRequestSteps false true rid cid = [FStep.publishReq rid cid] :=
  ⟨rfl, rfl⟩

/-- C4, counterexample: `submitAndWait` with a 1000 ms deadline and no
arriving result fails with the timeout error at 1000 ms, but the waiter
registered for the call's correlation id is not removed when the deadline
fires: the timer callback only rejects the promise and the entry stays in
the table. -/
theorem submitAndWait_timeout_leaves_waiter_cex :
    submitAndWait (Except.ok ()) (some 1000) none =
      (SAWOutcome.rejected "Computation request timed out", 1000) ∧
    (runW [WaiterEvent.register "c" 7, WaiterEvent.advance 1000,
           WaiterEvent.timeoutFire]).waiters = [⟨"c", 7, 0⟩] := by
  decide

/-- C4, amended: when no matching result arrives, `submitAndWait` fails
with the timeout error after opts.timeout ms (30000 ms when absent); the
deadline firing does not remove the waiter — the entry is only removed by
the 5-minute expiry timer armed at registration. -/
theorem submitAndWait_timeout_behavior (optTimeout : Option Nat) :
    submitAndWait (Except.ok ()) optTimeout none =
      (SAWOutcome.rejected "Computation request timed out",
        optTimeout.getD defaultTimeoutMs) ∧
    (∀ st : WaiterState, stepW st WaiterEvent.timeoutFire = st) ∧
    (∀ tr : List WaiterEvent,
      (stepW (runW tr) (WaiterEvent.advance ((runW tr).now + expiryMs))).waiters = []) :=
  ⟨rfl, fun _ => rfl,
   fun tr => waiters_empty_after_expiry (runW tr) (waiterInv_runW tr)⟩

/-- C5: when the publish fails, `submitRequest` rethrows the publish error
and changes nothing: assuming no waiter was registered for the call's
correlation id beforehand, none is afterwards, and the pending table (hence
pendingCount) is exactly as before the call. -/
theorem submit_publish_failure_clean (e : String) (callback : Option Nat)
    (requestType rid cid : String) (st : FeederSt)
    (hw : ∀ w ∈ st.consumer.waiters, w.cid ≠ cid) :
    submitRequest (Except.error e) callback requestType rid cid st = (st, Except.error e) ∧
    (∀ w ∈ (submitRequest (Except.error e) callback requestType rid cid st).1.consumer.waiters,
      w.cid ≠ cid) ∧
    getPendingCount (submitRequest (Except.error e) callback requestType rid cid st).1
      = getPendingCount st :=
  ⟨rfl, hw, rfl⟩

/-- Witness for C5 at a concrete failing publish. -/
theorem submit_publish_failure_clean_witness :
    submitRequest (Except.error "publish failed") (some 7) "BAC_CALCULATION" "r" "c"
      ⟨[], WaiterState.initial⟩ = (⟨[], WaiterState.initial⟩, Except.error "publish failed") :=
  (submit_publish_failure_clean "publish failed" (some 7) "BAC_CALCULATION" "r" "c"
    ⟨[], WaiterState.initial⟩ (by decide)).1

/-- C6, counterexample: POST /api/compute/submit is not routed to any
compute handler; it falls through to the terminal 404 handler, whose
response has status 404, not 202. -/
theorem compute_submit_not_mounted_cex :
    appDispatch "POST" "/api/compute/submit" = AppHandler.notFound ∧
    notFoundResponse.status = 404 ∧ ¬ notFoundResponse.status = 202 := by
  decide

/-- C6, amended: the compute routes are not mounted (the mounting line is
commented out), so POST /api/compute/submit is answered by the 404 handler
with status 404 and body success = false, message Route not found. -/
theorem compute_submit_responds_404 :
    appDispatch "POST" "/api/compute/submit" = AppHandler.notFound ∧
    mountMatches "/api/compute" "/api/compute/submit" = true ∧
    notFoundResponse = ⟨404, some false, some "Route not found"⟩ := by
  decide

/-- C7, counterexample: the source header of a published request message is
"middle-api", not "gateway". -/
theorem publish_source_header_cex :
    getHeader (publishRequestMessage sampleRequest) "source" = some "middle-api" ∧
    ¬ getHeader (publishRequestMessage sampleRequest) "source" = some "gateway" := by
  decide

/-- C7, amended: every message published to the request topic has key equal
to the request's request id and headers binding correlation-id to the
request's correlation id and source to "middle-api". -/
theorem publishRequest_key_and_headers (request : RequestRecord) :
    (publishRequestMessage request).key = request.request_id ∧
    getHeader (publishRequestMessage request) "correlation-id"
      = some request.correlation_id ∧
    getHeader (publishRequestMessage request) "source" = some "middle-api" :=
  ⟨rfl, rfl, rfl⟩

theorem isLive_of_mem (st : HubState) (c : Conn) (i : Nat) (hcm : c ∈ st.conns)
    (hcid : c.cid = i) : isLive st i = true := by
  unfold isLive
  rw [List.any_eq_true]
  exact ⟨c, hcm, by simp [hcid]⟩

/-- C8, counterexample: a connection that authenticates as u1 and then
re-authenticates as u2 stays in the clients set of u1, so broadcastToUser
u1 delivers to a connection that is currently bound to u2; the delivery set
of broadcastToUser is not exactly the connections currently bound to the
user. -/
theorem broadcastToUser_stale_binding_cex :
    (runHub [HubEvent.connect 1, HubEvent.authenticate 1 true "u1",
             HubEvent.authenticate 1 true "u2"]).conns = [⟨1, some "u2", []⟩] ∧
    broadcastToUser (runHub [HubEvent.connect 1, HubEvent.authenticate 1 true "u1",
             HubEvent.authenticate 1 true "u2"]) "u1" = [1] ∧
    ¬ (∀ i ∈ broadcastToUser (runHub [HubEvent.connect 1,
          HubEvent.authenticate 1 true "u1", HubEvent.authenticate 1 true "u2"]) "u1",
        ∃ c ∈ (runHub [HubEvent.connect 1, HubEvent.authenticate 1 true "u1",
          HubEvent.authenticate 1 true "u2"]).conns,
          c.cid = i ∧ c.userId = some "u1") := by
  decide

/-- C8, amended: in every reachable hub state, broadcastToEvent E delivers
exactly to the connections whose subscribedEvents contains E at the time of
the call; broadcastToUser U delivers to every connection currently bound to
U and only to live connections, but may also deliver to live connections
that re-authenticated away from U, since a connection is never removed from
the set of its former user. -/
theorem broadcast_selectivity (tr : List HubEvent) (e u : String) (i : Nat) :
    (i ∈ broadcastToEvent (runHub tr) e ↔
      ∃ c ∈ (runHub tr).conns, c.cid = i ∧ e ∈ c.subscribedEvents) ∧
    (∀ c ∈ (runHub tr).conns, c.cid = i → c.userId = some u →
      i ∈ broadcastToUser (runHub tr) u) ∧
    (i ∈ broadcastToUser (runHub tr) u → isLive (runHub tr) i = true) := by
  obtain ⟨ha, hb, hc, he⟩ := hubInv_runHub tr
  refine ⟨?_, ?_, ?_⟩
  · unfold broadcastToEvent
    rw [List.mem_filter]
    constructor
    · rintro ⟨hmem, _⟩
      exact hb e i hmem
    · rintro ⟨c, hcm, hcid, hsub⟩
      exact ⟨hcid ▸ hc c hcm e hsub, isLive_of_mem (runHub tr) c i hcm hcid⟩
  · intro c hcm hcid hu
    unfold broadcastToUser
    rw [List.mem_filter]
    exact ⟨hcid ▸ he c hcm u hu, isLive_of_mem (runHub tr) c i hcm hcid⟩
  · intro hmem
    unfold broadcastToUser at hmem
    rw [List.mem_filter] at hmem
    exact hmem.2

/-- Witness for the C8 amended theorem on a concrete trace. -/
theorem broadcast_selectivity_witness :
    1 ∈ broadcastToEvent (runHub [HubEvent.connect 1, HubEvent.authenticate 1 true "u1",
      HubEvent.subscribeEvent 1 (some "e1")]) "e1" ∧
    1 ∈ broadcastToUser (runHub [HubEvent.connect 1, HubEvent.authenticate 1 true "u1",
      HubEvent.subscribeEvent 1 (some "e1")]) "u1" := by
  constructor
  · exact (broadcast_selectivity [HubEvent.connect 1, HubEvent.authenticate 1 true "u1",
      HubEvent.subscribeEvent 1 (some "e1")] "e1" "u1" 1).1.mpr
      ⟨⟨1, some "u1", ["e1"]⟩, by decide, by decide, by decide⟩
  · exact (broadcast_selectivity [HubEvent.connect 1, HubEvent.authenticate 1 true "u1",
      HubEvent.subscribeEvent 1 (some "e1")] "e1" "u1" 1).2.1
      ⟨1, some "u1", ["e1"]⟩ (by decide) (by decide) (by decide)

/-- C9: after any event sequence, the waiter table holds at most one entry
per register call, every present entry is younger than the 5-minute expiry
(so every registered waiter is removed no later than 5 minutes after its
registration, resolved or not), and advancing the clock by the expiry delay
empties the table even if no results arrive. -/
theorem waiter_leak_ceiling (tr : List WaiterEvent) :
    (runW tr).waiters.length ≤ registerCount tr ∧
    (∀ w ∈ (runW tr).waiters, (runW tr).now < w.regTime + expiryMs) ∧
    (stepW (runW tr) (WaiterEvent.advance ((runW tr).now + expiryMs))).waiters = [] := by
  refine ⟨waiters_length_runW tr, ?_,
    waiters_empty_after_expiry (runW tr) (waiterInv_runW tr)⟩
  intro w hw
  exact ((waiterInv_runW tr) w hw).2.1

/-- Witness for C9: a freshly registered waiter is younger than the expiry
delay. -/
theorem waiter_leak_ceiling_witness :
    (runW [WaiterEvent.register "c" 1]).now <
      (⟨"c", 1, 0⟩ : WaiterEntry).regTime + expiryMs :=
  (waiter_leak_ceiling [WaiterEvent.register "c" 1]).2.1 ⟨"c", 1, 0⟩ (by decide)

/-- C10: a second registerHandler call for an already-registered
correlation id silently replaces the first handler (the step is total and
the table keeps a single entry), and the 5-minute timer armed by the first
call is never cancelled: when it fires at t1 + expiryMs it deletes whatever
handler is then registered under the correlation id, so the replacement is
removed at t1 + expiryMs, earlier than 5 minutes after its own registration
at t2. -/
theorem registerHandler_silent_replacement (cid : String) (h1 h2 t1 t2 : Nat)
    (hlt : t1 < t2) (hwin : t2 < t1 + expiryMs) :
    (runW [WaiterEvent.advance t1, WaiterEvent.register cid h1,
           WaiterEvent.advance t2, WaiterEvent.register cid h2]).waiters
      = [⟨cid, h2, t2⟩] ∧
    (runW [WaiterEvent.advance t1, WaiterEvent.register cid h1,
           WaiterEvent.advance t2, WaiterEvent.register cid h2,
           WaiterEvent.advance (t1 + expiryMs)]).waiters = [] ∧
    t1 + expiryMs < t2 + expiryMs := by
  have s1 : stepW WaiterState.initial (WaiterEvent.advance t1) = ⟨t1, [], []⟩ := by
    simp [stepW, WaiterState.initial]
  have s2 : stepW ⟨t1, [], []⟩ (WaiterEvent.register cid h1) =
      ⟨t1, [⟨cid, h1, t1⟩], [(t1 + expiryMs, cid)]⟩ := by
    simp [stepW, setWaiter]
  have s3 : stepW ⟨t1, [⟨cid, h1, t1⟩], [(t1 + expiryMs, cid)]⟩ (WaiterEvent.advance t2) =
      ⟨t2, [⟨cid, h1, t1⟩], [(t1 + expiryMs, cid)]⟩ := by
    have hn : ¬ (t2 < t1) := by omega
    have hnd : ¬ (t1 + expiryMs ≤ t2) := by omega
    simp [stepW, hn, hnd]
    omega
  have s4 : stepW ⟨t2, [⟨cid, h1, t1⟩], [(t1 + expiryMs, cid)]⟩
      (WaiterEvent.register cid h2) =
      ⟨t2, [⟨cid, h2, t2⟩], [(t1 + expiryMs, cid), (t2 + expiryMs, cid)]⟩ := by
    simp [stepW, setWaiter]
  have s5 : stepW ⟨t2, [⟨cid, h2, t2⟩], [(t1 + expiryMs, cid), (t2 + expiryMs, cid)]⟩
      (WaiterEvent.advance (t1 + expiryMs)) =
      ⟨t1 + expiryMs, [], [(t2 + expiryMs, cid)]⟩ := by
    have hn : ¬ (t1 + expiryMs < t2) := by omega
    have hd2 : ¬ (t2 + expiryMs ≤ t1 + expiryMs) := by omega
    simp [stepW, hn, hd2]
    omega
  have hrun4 : runW [WaiterEvent.advance t1, WaiterEvent.register cid h1,
      WaiterEvent.advance t2, WaiterEvent.register cid h2] =
      ⟨t2, [⟨cid, h2, t2⟩], [(t1 + expiryMs, cid), (t2 + expiryMs, cid)]⟩ := by
    simp only [runW, List.foldl]
    rw [s1, s2, s3, s4]
  have hrun5 : runW [WaiterEvent.advance t1, WaiterEvent.register cid h1,
      WaiterEvent.advance t2, WaiterEvent.register cid h2,
      WaiterEvent.advance (t1 + expiryMs)] =
      ⟨t1 + expiryMs, [], [(t2 + expiryMs, cid)]⟩ := by
    simp only [runW, List.foldl]
    rw [s1, s2, s3, s4, s5]
  refine ⟨by rw [hrun4], by rw [hrun5], by omega⟩

/-- Witness for C10 at concrete times and handlers. -/
theorem registerHandler_silent_replacement_witness :
    (runW [WaiterEvent.advance 0, WaiterEvent.register "c" 1,
           WaiterEvent.advance 1000, WaiterEvent.register "c" 2]).waiters
      = [⟨"c", 2, 1000⟩] :=
  (registerHandler_silent_replacement "c" 1 2 0 1000 (by decide) (by decide)).1

end Velivolant
